import Mathlib

/-!
Shallow embedding of the model version manager of the water-potability
MLOps repository (`src/model_manager.py` and the predict endpoint of
`main.py`), together with proofs of the testable properties stated in the
specification.

Modelling conventions:
* Python `str` is Lean `String`; character-level operations work on `.data`.
* Python `float` values that the claims reason about (feature values,
  accuracies, probabilities) are modelled as `Rat`.
* Python dicts are association lists in insertion order (`dictGet`,
  `dictSet`, `dictDel` mirror `d[k]`, `d[k] = v`, `del d[k]`).
* The filesystem is part of an explicit `SysState`; disk writes are assumed
  to succeed.  The failure points modelled are the ones the specification
  names: artifact loading, base-dataset reading, and the training pipeline.
* The scikit-learn / xgboost library is treated as an external collaborator
  supplying fit/evaluate capabilities, embedded as a `TrainOracle`.
-/

/-- Is `c` one of the ASCII decimal digit characters.  Python's `int`
accepts exactly these as digits of a base-10 literal. -/
def isDig (c : Char) : Bool := decide (48 ≤ c.toNat) && decide (c.toNat ≤ 57)

/-- Numeric value of a digit character. -/
def digVal (c : Char) : Nat := c.toNat - 48

/-- Horner accumulation of a digit-character list, most significant first. -/
def charsValFrom (acc : Nat) (l : List Char) : Nat :=
  l.foldl (fun a c => 10 * a + digVal c) acc

/-- Value of a digit-character list, most significant first. -/
def charsVal (l : List Char) : Nat := charsValFrom 0 l

/-- Digits of Python's `int(str)` after the optional sign: a nonempty run
of digits in which single underscores may appear between two digits. -/
def pyIntDigitsAux : Nat → List Char → Option Nat
  | acc, [] => some acc
  | acc, c :: rest =>
    if c = '_' then
      match rest with
      | [] => none
      | c2 :: rest2 =>
        if isDig c2 then pyIntDigitsAux (10 * acc + digVal c2) rest2 else none
    else
      if isDig c then pyIntDigitsAux (10 * acc + digVal c) rest else none

/-- Parse the digit part of a Python integer literal: the first character
must be a digit (no leading underscore), then `pyIntDigitsAux`. -/
def pyIntDigits : List Char → Option Nat
  | [] => none
  | c :: rest => if isDig c then pyIntDigitsAux (digVal c) rest else none

/-- The whitespace characters Python's `int` strips from both ends. -/
def isPySpace (c : Char) : Bool :=
  c = ' ' || c = '\t' || c = '\n' || c = '\r' || c.toNat = 11 || c.toNat = 12

/-- Strip leading and trailing whitespace, as Python's `int(str)` does. -/
def stripWs (l : List Char) : List Char :=
  ((l.dropWhile isPySpace).reverse.dropWhile isPySpace).reverse

/-- Python's `int(str)`: strip whitespace, optional sign, digits with
underscore grouping.  `none` models a raised `ValueError`. -/
def pyInt (s : String) : Option Int :=
  match stripWs s.data with
  | [] => none
  | c :: rest =>
    if c = '-' then (pyIntDigits rest).map (fun n => -(Int.ofNat n))
    else if c = '+' then (pyIntDigits rest).map (fun n => Int.ofNat n)
    else (pyIntDigits (c :: rest)).map (fun n => Int.ofNat n)

/-- Decimal digit characters of `n`, most significant first; empty for 0.
The first argument is structural fuel, at least `n`. -/
def natDecimalAux : Nat → Nat → List Char
  | 0, _ => []
  | fuel + 1, n =>
    if n = 0 then [] else natDecimalAux fuel (n / 10) ++ [Nat.digitChar (n % 10)]

/-- Decimal rendering of a natural number, as Python's `str`/f-string. -/
def natDecimal (n : Nat) : List Char :=
  if n = 0 then ['0'] else natDecimalAux n n

/-- Decimal rendering of an integer, as Python's f-string formatting. -/
def intDecimal (z : Int) : List Char :=
  if z < 0 then '-' :: natDecimal z.natAbs else natDecimal z.natAbs

theorem digitChar_isDig {d : Nat} (h : d < 10) : isDig (Nat.digitChar d) = true := by
  interval_cases d <;> decide

theorem digitChar_digVal {d : Nat} (h : d < 10) : digVal (Nat.digitChar d) = d := by
  interval_cases d <;> decide

theorem natDecimalAux_all_dig :
    ∀ fuel n c, c ∈ natDecimalAux fuel n → isDig c = true := by
  intro fuel
  induction fuel with
  | zero => intro n c hc; simp [natDecimalAux] at hc
  | succ fuel ih =>
    intro n c hc
    by_cases h0 : n = 0
    · simp [natDecimalAux, h0] at hc
    · simp only [natDecimalAux, h0, if_false, List.mem_append, List.mem_singleton] at hc
      rcases hc with hc | hc
      · exact ih _ _ hc
      · subst hc; exact digitChar_isDig (Nat.mod_lt _ (by omega))

theorem charsValFrom_append (acc : Nat) (l : List Char) (c : Char) :
    charsValFrom acc (l ++ [c]) = 10 * charsValFrom acc l + digVal c := by
  simp [charsValFrom, List.foldl_append]

theorem natDecimalAux_val :
    ∀ fuel n acc, n ≤ fuel →
      charsValFrom acc (natDecimalAux fuel n) =
        acc * 10 ^ (natDecimalAux fuel n).length + n := by
  intro fuel
  induction fuel with
  | zero => intro n acc h; interval_cases n; simp [natDecimalAux, charsValFrom]
  | succ fuel ih =>
    intro n acc h
    by_cases h0 : n = 0
    · simp [natDecimalAux, h0, charsValFrom]
    · have hdiv : n / 10 ≤ fuel := by
        have : n / 10 < n := Nat.div_lt_self (by omega) (by omega)
        omega
      simp only [natDecimalAux, h0, if_false]
      rw [charsValFrom_append, ih _ acc hdiv]
      rw [List.length_append, List.length_singleton]
      rw [digitChar_digVal (Nat.mod_lt _ (by omega))]
      ring_nf
      omega

theorem natDecimal_val (n : Nat) : charsVal (natDecimal n) = n := by
  by_cases h0 : n = 0
  · subst h0; decide
  · unfold natDecimal charsVal
    rw [if_neg h0, natDecimalAux_val n n 0 (le_refl n)]
    omega

theorem natDecimal_all_dig {n : Nat} {c : Char} (hc : c ∈ natDecimal n) :
    isDig c = true := by
  unfold natDecimal at hc
  by_cases h0 : n = 0
  · simp [h0] at hc; subst hc; decide
  · rw [if_neg h0] at hc; exact natDecimalAux_all_dig n n c hc

theorem natDecimal_ne_nil (n : Nat) : natDecimal n ≠ [] := by
  unfold natDecimal
  by_cases h0 : n = 0
  · simp [h0]
  · rw [if_neg h0]
    obtain ⟨fuel, rfl⟩ : ∃ fuel, n = fuel + 1 := ⟨n - 1, by omega⟩
    simp [natDecimalAux, h0]

theorem isDig_char_facts {c : Char} (h : isDig c = true) :
    c ≠ '_' ∧ c ≠ '-' ∧ c ≠ '+' ∧ c ≠ 'V' ∧ isPySpace c = false := by
  have hv : 48 ≤ c.toNat ∧ c.toNat ≤ 57 := by
    simpa [isDig] using h
  refine ⟨?_, ?_, ?_, ?_, ?_⟩
  · intro hc; subst hc; simp at hv
  · intro hc; subst hc; simp at hv
  · intro hc; subst hc; simp at hv
  · intro hc; subst hc; simp at hv
  · simp only [isPySpace, Bool.or_eq_false_iff, decide_eq_false_iff_not]
    refine ⟨⟨⟨⟨⟨?_, ?_⟩, ?_⟩, ?_⟩, ?_⟩, ?_⟩ <;> intro hc <;>
      first
      | (subst hc; simp at hv)
      | (rw [hc] at hv; omega)

theorem pyIntDigitsAux_cons_dig {c : Char} (hc : isDig c = true)
    (acc : Nat) (rest : List Char) :
    pyIntDigitsAux acc (c :: rest) = pyIntDigitsAux (10 * acc + digVal c) rest := by
  have h1 : ¬ c = '_' := (isDig_char_facts hc).1
  cases rest with
  | nil => simp [pyIntDigitsAux, h1, hc]
  | cons c2 rest2 => simp [pyIntDigitsAux, h1, hc]

theorem pyIntDigitsAux_all_dig :
    ∀ l acc, (∀ c ∈ l, isDig c = true) →
      pyIntDigitsAux acc l = some (charsValFrom acc l) := by
  intro l
  induction l with
  | nil => intro acc _; simp [pyIntDigitsAux, charsValFrom]
  | cons c rest ih =>
    intro acc hall
    have hc : isDig c = true := hall c (List.mem_cons_self c rest)
    have hrest : ∀ x ∈ rest, isDig x = true :=
      fun x hx => hall x (List.mem_cons_of_mem c hx)
    rw [pyIntDigitsAux_cons_dig hc, ih _ hrest]
    simp [charsValFrom]

theorem pyIntDigits_all_dig {l : List Char} (hne : l ≠ [])
    (hall : ∀ c ∈ l, isDig c = true) : pyIntDigits l = some (charsVal l) := by
  match l, hne with
  | c :: rest, _ =>
    have hc : isDig c = true := hall c (List.mem_cons_self c rest)
    have hrest : ∀ x ∈ rest, isDig x = true :=
      fun x hx => hall x (List.mem_cons_of_mem c hx)
    show (if isDig c then pyIntDigitsAux (digVal c) rest else none) = _
    rw [if_pos hc, pyIntDigitsAux_all_dig rest (digVal c) hrest]
    simp [charsVal, charsValFrom]

theorem dropWhile_of_all_neg {p : Char → Bool} :
    ∀ l : List Char, (∀ c ∈ l, p c = false) → l.dropWhile p = l := by
  intro l h
  cases l with
  | nil => rfl
  | cons c rest => simp [List.dropWhile_cons, h c (List.mem_cons_self c rest)]

theorem stripWs_of_no_space {l : List Char} (h : ∀ c ∈ l, isPySpace c = false) :
    stripWs l = l := by
  unfold stripWs
  rw [dropWhile_of_all_neg l h, dropWhile_of_all_neg, List.reverse_reverse]
  intro c hc
  exact h c (List.mem_reverse.mp hc)

theorem natDecimal_no_space {n : Nat} : ∀ c ∈ natDecimal n, isPySpace c = false :=
  fun _ hc => (isDig_char_facts (natDecimal_all_dig hc)).2.2.2.2

theorem pyInt_cons {s : String} {c : Char} {rest : List Char}
    (h : stripWs s.data = c :: rest) :
    pyInt s =
      if c = '-' then (pyIntDigits rest).map (fun n => -(Int.ofNat n))
      else if c = '+' then (pyIntDigits rest).map (fun n => Int.ofNat n)
      else (pyIntDigits (c :: rest)).map (fun n => Int.ofNat n) := by
  unfold pyInt
  rw [h]

theorem pyInt_natDecimal (n : Nat) : pyInt (String.mk (natDecimal n)) = some (n : Int) := by
  obtain ⟨c, rest, hrep⟩ : ∃ c rest, natDecimal n = c :: rest := by
    rcases h : natDecimal n with _ | ⟨c, rest⟩
    · exact absurd h (natDecimal_ne_nil n)
    · exact ⟨c, rest, rfl⟩
  have hstrip : stripWs (String.mk (natDecimal n)).data = c :: rest := by
    show stripWs (natDecimal n) = c :: rest
    rw [stripWs_of_no_space natDecimal_no_space, hrep]
  rw [pyInt_cons hstrip]
  have hc : isDig c = true := natDecimal_all_dig (hrep ▸ List.mem_cons_self c rest)
  rw [if_neg (isDig_char_facts hc).2.1, if_neg (isDig_char_facts hc).2.2.1]
  rw [← hrep, pyIntDigits_all_dig (natDecimal_ne_nil n) (fun c hc => natDecimal_all_dig hc)]
  rw [natDecimal_val]
  rfl

theorem pyInt_mk_natDecimal_eq (n m : Nat)
    (h : String.mk (natDecimal n) = String.mk (natDecimal m)) : n = m := by
  have h1 := pyInt_natDecimal n
  rw [h] at h1
  rw [pyInt_natDecimal m] at h1
  have h2 : m = n := by simpa using h1
  omega

theorem pyInt_intDecimal (z : Int) : pyInt (String.mk (intDecimal z)) = some z := by
  unfold intDecimal
  by_cases hz : z < 0
  · rw [if_pos hz]
    have hstrip : stripWs (String.mk ('-' :: natDecimal z.natAbs)).data =
        '-' :: natDecimal z.natAbs := by
      show stripWs ('-' :: natDecimal z.natAbs) = _
      apply stripWs_of_no_space
      intro c hc
      rcases List.mem_cons.mp hc with hc | hc
      · subst hc; decide
      · exact natDecimal_no_space c hc
    rw [pyInt_cons hstrip, if_pos rfl]
    rw [pyIntDigits_all_dig (natDecimal_ne_nil _) (fun c hc => natDecimal_all_dig hc)]
    rw [natDecimal_val]
    show some (-(Int.ofNat z.natAbs)) = some z
    congr 1
    have hoc : Int.ofNat z.natAbs = (z.natAbs : Int) := rfl
    rw [hoc]
    omega
  · rw [if_neg hz]
    rw [pyInt_natDecimal]
    congr 1
    omega

theorem intDecimal_inj {a b : Int} (h : String.mk (intDecimal a) = String.mk (intDecimal b)) :
    a = b := by
  have h1 := pyInt_intDecimal a
  rw [h] at h1
  rw [pyInt_intDecimal b] at h1
  have h2 : b = a := by simpa using h1
  omega

/-- Python's `str.encode("ascii", "ignore").decode("ascii")`: drop every
character outside the 7-bit ASCII range. -/
def asciiIgnore (s : String) : String :=
  String.mk (s.data.filter (fun c => c.toNat ≤ 127))

/-- Metadata kept per model version, one entry of the `versions` mapping of
`metadata.json`.  `incremental_samples` is present only on records created
by retraining, mirroring the JSON written by `_do_retrain`. -/
structure VersionRecord where
  created_at : String
  description : String
  training_samples : Nat
  incremental_samples : Option Nat
  model_path : String
  scaler_path : String
  accuracy : Rat
  cv_accuracy : Rat
deriving DecidableEq

/-- The registry persisted in `metadata.json`: the current-version pointer
plus the mapping version name to record, in dict insertion order. -/
structure Metadata where
  current_version : String
  versions : List (String × VersionRecord)
deriving DecidableEq

/-- Python `d[k]` lookup on an insertion-ordered dict. -/
def dictGet {α : Type} : List (String × α) → String → Option α
  | [], _ => none
  | (k, v) :: rest, key => if k = key then some v else dictGet rest key

/-- Python `d[k] = v`: update in place if the key exists, else append. -/
def dictSet {α : Type} : List (String × α) → String → α → List (String × α)
  | [], key, v => [(key, v)]
  | (k, w) :: rest, key, v =>
    if k = key then (key, v) :: rest else (k, w) :: dictSet rest key v

/-- Python `del d[k]` on a dict known to hold `k`. -/
def dictDel {α : Type} : List (String × α) → String → List (String × α)
  | [], _ => []
  | (k, w) :: rest, key => if k = key then rest else (k, w) :: dictDel rest key

/-- One labeled observation: the nine physicochemical feature columns plus
the `Potability` label, one row of the training CSV files. -/
structure Row where
  ph : Rat
  hardness : Rat
  solids : Rat
  chloramines : Rat
  sulfate : Rat
  conductivity : Rat
  organic_carbon : Rat
  trihalomethanes : Rat
  turbidity : Rat
  potability : Rat
deriving DecidableEq

/-- The value returned by a successful `_do_retrain`. -/
structure RetrainResult where
  success : Bool
  version : String
  training_samples : Nat
  incremental_samples : Nat
  accuracy : Rat
  cv_accuracy : Rat
  cv_scores : List Rat
  message : String
deriving DecidableEq

/-- The whole observable state of the manager: in-memory registry, the
persisted copy of `metadata.json`, the incremental CSV, the base training
CSV, and the set of artifact files on disk.  `none` for a file models its
absence. -/
structure SysState where
  metadata : Metadata
  persisted : Option Metadata
  incrementalFile : Option (List Row)
  baseFile : Option (List Row)
  artifactFiles : List String
deriving DecidableEq

/-- The fit/evaluate capabilities of the numeric library, an external
collaborator: given the combined scaled training set it either fails with
some error message or yields the in-sample training accuracy together with
the five stratified cross-validation scores. -/
structure TrainOracle where
  trainResult : List Row → Except String (Rat × List Rat)

/-- The default `models` directory of `ModelVersionManager`. -/
def models_dir : String := "models"

/-- The dedicated subdirectory holding every non-Original version. -/
def versions_dir : String := models_dir ++ "/versions"

/-- Path join, as `pathlib`'s `/` operator. -/
def joinPath (dir file : String) : String := dir ++ "/" ++ file

/-- The seeded record for the pre-existing base model, written by
`_load_metadata` when no metadata file exists. -/
def originalRecord (now : String) : VersionRecord :=
  { created_at := now
    description := "Original ensemble model (RF + XGBoost + GB)"
    training_samples := 2293
    incremental_samples := none
    model_path := "model.joblib"
    scaler_path := "scaler.joblib"
    accuracy := 8439 / 10000
    cv_accuracy := 6424 / 10000 }

/-- The registry `_load_metadata` creates when no metadata file exists. -/
def bootstrapMetadata (now : String) : Metadata :=
  { current_version := "Original"
    versions := [("Original", originalRecord now)] }

/-- The state right after constructing the manager on a fresh deployment:
no metadata file existed, so the bootstrap registry is created and saved. -/
def bootState (now : String) (inc : Option (List Row)) (base : Option (List Row))
    (files : List String) : SysState :=
  { metadata := bootstrapMetadata now
    persisted := some (bootstrapMetadata now)
    incrementalFile := inc
    baseFile := base
    artifactFiles := files }

/-- `get_current_version`. -/
def get_current_version (m : Metadata) : String := m.current_version

/-- One entry of the `list_versions` output. -/
structure VersionView where
  version : String
  created_at : String
  description : String
  training_samples : Nat
  accuracy : Rat
  cv_accuracy : Rat
  is_current : Bool
deriving DecidableEq

/-- The dict built for one version inside `list_versions`. -/
def viewOf (current : String) (p : String × VersionRecord) : VersionView :=
  { version := p.1
    created_at := p.2.created_at
    description := p.2.description
    training_samples := p.2.training_samples
    accuracy := p.2.accuracy
    cv_accuracy := p.2.cv_accuracy
    is_current := p.1 = current }

/-- Python `name.replace("V", "")`: delete every `V` character. -/
def removeV (s : String) : String :=
  String.mk (s.data.filter (fun c => ¬ c = 'V'))

/-- The `sort_key` closure of `list_versions`: `Original` to `(0, 0)`, a
name whose `int` conversion succeeds after deleting `V`s to `(1, num)`,
anything else to `(2, 0)`. -/
def sort_key (v : VersionView) : Nat × Int :=
  if v.version = "Original" then (0, 0)
  else
    match pyInt (removeV v.version) with
    | some num => (1, num)
    | none => (2, 0)

/-- Lexicographic comparison of Python's 2-tuples, used by `list.sort`. -/
def keyLe (a b : Nat × Int) : Prop := a.1 < b.1 ∨ (a.1 = b.1 ∧ a.2 ≤ b.2)

instance : DecidableRel keyLe := fun a b => by
  unfold keyLe; infer_instance

/-- The ordering relation `list_versions` sorts by. -/
def viewLe (u v : VersionView) : Prop := keyLe (sort_key u) (sort_key v)

instance : DecidableRel viewLe := fun u v => by
  unfold viewLe; infer_instance

instance : IsTotal VersionView viewLe :=
  ⟨by intro a b; unfold viewLe keyLe; omega⟩

instance : IsTrans VersionView viewLe :=
  ⟨by intro a b c; unfold viewLe keyLe; omega⟩

/-- `list_versions`: build the view dicts in registry order, then sort with
Python's stable sort under `sort_key`. -/
def list_versions (m : Metadata) : List VersionView :=
  List.insertionSort viewLe (m.versions.map (viewOf m.current_version))

/-- `switch_version`: refuse unknown names, else move the pointer and save. -/
def switch_version (s : SysState) (version_name : String) : SysState × Bool :=
  match dictGet s.metadata.versions version_name with
  | none => (s, false)
  | some _ =>
    let md := { s.metadata with current_version := version_name }
    ({ s with metadata := md, persisted := some md }, true)

/-- `load_model_and_scaler`: resolve the version (current when `none`),
fail for unknown names, resolve `Original` against the base models
directory and every other version against the versions subdirectory, then
load both artifacts (modelled as their resolved paths); a missing file
fails with the loader's message. -/
def load_model_and_scaler (s : SysState) (version_name : Option String) :
    Except String (String × String) :=
  let v := version_name.getD s.metadata.current_version
  match dictGet s.metadata.versions v with
  | none => Except.error ("Version " ++ v ++ " not found")
  | some info =>
    let model_path :=
      if v = "Original" then joinPath models_dir info.model_path
      else joinPath versions_dir info.model_path
    let scaler_path :=
      if v = "Original" then joinPath models_dir info.scaler_path
      else joinPath versions_dir info.scaler_path
    if model_path ∈ s.artifactFiles then
      if scaler_path ∈ s.artifactFiles then Except.ok (model_path, scaler_path)
      else Except.error ("No such file or directory: " ++ scaler_path)
    else Except.error ("No such file or directory: " ++ model_path)

/-- Python `max` over a nonempty list, `none` on the empty list. -/
def listMax : List Int → Option Int
  | [] => none
  | x :: xs =>
    match listMax xs with
    | none => some x
    | some m => some (max x m)

/-- The numeric suffix `_get_next_version_number` extracts from one
registry key: only names starting with `V` are considered, their value is
`int(name.replace("V", ""))`, and parse failures are skipped. -/
def versionNumOf (name : String) : Option Int :=
  match name.data with
  | 'V' :: _ => pyInt (removeV name)
  | _ => none

/-- The list of extracted suffixes, in registry order. -/
def version_nums (m : Metadata) : List Int :=
  m.versions.filterMap (fun p => versionNumOf p.1)

/-- The integer suffix of the next version: one more than the largest
extracted suffix, or 1 when no `V`-name parses. -/
def next_num (m : Metadata) : Int :=
  match listMax (version_nums m) with
  | some mx => mx + 1
  | none => 1

/-- `_get_next_version_number`: the f-string `V{next_num}`. -/
def get_next_version_number (m : Metadata) : String :=
  String.mk ('V' :: intDecimal (next_num m))

/-- The row `_do_retrain` appends: each named feature is looked up with
`dict.get(key, 0)`, so a missing key silently becomes 0. -/
def mkNewRow (new_data : List (String × Rat)) (actual_label : Int) : Row :=
  { ph := ((dictGet new_data ("ph")).getD 0)
    hardness := ((dictGet new_data ("Hardness")).getD 0)
    solids := ((dictGet new_data ("Solids")).getD 0)
    chloramines := ((dictGet new_data ("Chloramines")).getD 0)
    sulfate := ((dictGet new_data ("Sulfate")).getD 0)
    conductivity := ((dictGet new_data ("Conductivity")).getD 0)
    organic_carbon := ((dictGet new_data ("Organic_carbon")).getD 0)
    trihalomethanes := ((dictGet new_data ("Trihalomethanes")).getD 0)
    turbidity := ((dictGet new_data ("Turbidity")).getD 0)
    potability := (actual_label : Rat) }

/-- Arithmetic mean of the cross-validation scores, `cv_scores.mean()`. -/
def ratMean (l : List Rat) : Rat := l.sum / (l.length : Rat)

/-- The `except` wrapper at the bottom of `_do_retrain`: re-raise as a
RuntimeError whose message is the original one stripped to ASCII. -/
def wrapTrainingError (msg : String) : String :=
  "Retraining error: " ++ asciiIgnore msg

/-- The canonical empty incremental table created when the CSV is absent. -/
def emptyIncremental : List Row := []

/-- `_do_retrain`, the retraining pipeline of `ModelVersionManager`:
load the current artifacts, append the new row to the incremental table and
write it back (durable), read the base dataset, hand the combined set to
the library, mint the next version name, save the new artifacts, register
the record and switch to it, saving the registry.  Any failure surfaces as
a RuntimeError with an ASCII-stripped message; the returned state is the
one left behind at that point.  Disk writes themselves are assumed to
succeed. -/
def do_retrain (s : SysState) (oracle : TrainOracle)
    (new_data : List (String × Rat)) (actual_label : Int) (now : String) :
    SysState × Except String RetrainResult :=
  match load_model_and_scaler s none with
  | Except.error e => (s, Except.error (wrapTrainingError e))
  | Except.ok _ =>
    let incremental_df0 := s.incrementalFile.getD emptyIncremental
    let new_row := mkNewRow new_data actual_label
    let incremental_df := incremental_df0 ++ [new_row]
    let s1 := { s with incrementalFile := some incremental_df }
    match s1.baseFile with
    | none =>
      (s1, Except.error (wrapTrainingError
        ("No such file or directory: Data-set/train_dataset.csv")))
    | some original_train =>
      let combined_df := original_train ++ incremental_df
      match oracle.trainResult combined_df with
      | Except.error e => (s1, Except.error (wrapTrainingError e))
      | Except.ok (train_accuracy, cv_scores) =>
        let new_version_name := get_next_version_number s1.metadata
        let model_filename := "model_" ++ new_version_name ++ ".joblib"
        let scaler_filename := "scaler_" ++ new_version_name ++ ".joblib"
        let files := s1.artifactFiles ++
          [joinPath versions_dir model_filename, joinPath versions_dir scaler_filename]
        let record : VersionRecord :=
          { created_at := now
            description := "Retrained with " ++
              String.mk (natDecimal incremental_df.length) ++ " additional sample(s)"
            training_samples := combined_df.length
            incremental_samples := some incremental_df.length
            model_path := model_filename
            scaler_path := scaler_filename
            accuracy := train_accuracy
            cv_accuracy := ratMean cv_scores }
        let md : Metadata :=
          { current_version := new_version_name
            versions := dictSet s1.metadata.versions new_version_name record }
        let s2 := { s1 with
          metadata := md
          persisted := some md
          artifactFiles := files }
        (s2, Except.ok
          { success := true
            version := new_version_name
            training_samples := combined_df.length
            incremental_samples := incremental_df.length
            accuracy := train_accuracy
            cv_accuracy := ratMean cv_scores
            cv_scores := cv_scores
            message := "Model " ++ new_version_name ++ " trained successfully with " ++
              String.mk (natDecimal combined_df.length) ++ " samples" })

/-- `delete_version`: refuse `Original`, the current version, and unknown
names; otherwise unlink both artifact files if present, drop the registry
entry and save. -/
def delete_version (s : SysState) (version_name : String) : SysState × Bool :=
  if version_name = "Original" then (s, false)
  else if version_name = s.metadata.current_version then (s, false)
  else
    match dictGet s.metadata.versions version_name with
    | none => (s, false)
    | some info =>
      let model_path := joinPath versions_dir info.model_path
      let scaler_path := joinPath versions_dir info.scaler_path
      let files := (s.artifactFiles.filter (fun f => ¬ f = model_path)).filter
        (fun f => ¬ f = scaler_path)
      let md := { s.metadata with
        versions := dictDel s.metadata.versions version_name }
      ({ s with metadata := md, persisted := some md, artifactFiles := files }, true)

/-- The classifier as the predict endpoint of `main.py` sees it: a hard
prediction over a feature row, and optionally (when the object exposes
`predict_proba`) per-class probability estimates. -/
structure SkModel where
  predictOne : List Rat → Int
  predictProba : Option (List Rat → List Rat)

/-- A fitted feature scaler, an opaque transform over the raw features. -/
structure SkScaler where
  transform : List Rat → List Rat

/-- The scaled input the endpoint feeds to the classifier. -/
def scaledInput (scaler : Option SkScaler) (features : List Rat) : List Rat :=
  match scaler with
  | some sc => sc.transform features
  | none => features

/-- The predict endpoint of `main.py`: scale when a scaler is loaded, take
the hard prediction, and read `probabilities[prediction]` as the
confidence when `predict_proba` exists, else a fixed 1.0. -/
def predictEndpoint (model : SkModel) (scaler : Option SkScaler)
    (features : List Rat) : Int × Rat :=
  let input_data := scaledInput scaler features
  let prediction := model.predictOne input_data
  let confidence :=
    match model.predictProba with
    | some proba => ((proba input_data).getD prediction.toNat 0)
    | none => 1
  (prediction, confidence)

theorem dictGet_mem {α : Type} :
    ∀ (l : List (String × α)) (k : String) (v : α),
      dictGet l k = some v → (k, v) ∈ l := by
  intro l
  induction l with
  | nil => intro k v h; simp [dictGet] at h
  | cons p rest ih =>
    intro k v h
    obtain ⟨k0, v0⟩ := p
    by_cases hk : k0 = k
    · subst hk
      simp [dictGet] at h
      subst h
      exact List.mem_cons_self _ _
    · rw [show dictGet ((k0, v0) :: rest) k =
          if k0 = k then some v0 else dictGet rest k from rfl, if_neg hk] at h
      exact List.mem_cons_of_mem _ (ih k v h)

theorem dictGet_dictSet_self {α : Type} :
    ∀ (l : List (String × α)) (k : String) (v : α),
      dictGet (dictSet l k v) k = some v := by
  intro l
  induction l with
  | nil => intro k v; simp [dictSet, dictGet]
  | cons p rest ih =>
    intro k v
    obtain ⟨k0, v0⟩ := p
    by_cases hk : k0 = k
    · subst hk; simp [dictSet, dictGet]
    · simp only [dictSet, hk, if_false]
      rw [show dictGet ((k0, v0) :: dictSet rest k v) k =
          if k0 = k then some v0 else dictGet (dictSet rest k v) k from rfl]
      rw [if_neg hk]
      exact ih k v

theorem dictSet_of_absent {α : Type} :
    ∀ (l : List (String × α)) (k : String) (v : α),
      dictGet l k = none → dictSet l k v = l ++ [(k, v)] := by
  intro l
  induction l with
  | nil => intro k v _; simp [dictSet]
  | cons p rest ih =>
    intro k v h
    obtain ⟨k0, v0⟩ := p
    by_cases hk : k0 = k
    · rw [show dictGet ((k0, v0) :: rest) k =
          if k0 = k then some v0 else dictGet rest k from rfl, if_pos hk] at h
      exact absurd h (by simp)
    · rw [show dictGet ((k0, v0) :: rest) k =
          if k0 = k then some v0 else dictGet rest k from rfl, if_neg hk] at h
      simp only [dictSet, hk, if_false]
      rw [ih k v h]
      simp

theorem dictGet_cons {α : Type} (k0 : String) (v0 : α) (rest : List (String × α))
    (key : String) :
    dictGet ((k0, v0) :: rest) key =
      if k0 = key then some v0 else dictGet rest key := rfl

theorem dictDel_cons {α : Type} (k0 : String) (v0 : α) (rest : List (String × α))
    (key : String) :
    dictDel ((k0, v0) :: rest) key =
      if k0 = key then rest else (k0, v0) :: dictDel rest key := rfl

theorem dictGet_dictDel_ne {α : Type} :
    ∀ (l : List (String × α)) (k k2 : String), ¬ k2 = k →
      dictGet (dictDel l k) k2 = dictGet l k2 := by
  intro l
  induction l with
  | nil => intro k k2 _; simp [dictDel]
  | cons p rest ih =>
    intro k k2 hne
    obtain ⟨k0, v0⟩ := p
    by_cases hk : k0 = k
    · rw [dictDel_cons, if_pos hk, dictGet_cons, if_neg (fun h => hne (hk ▸ h.symm))]
    · rw [dictDel_cons, if_neg hk, dictGet_cons, dictGet_cons]
      by_cases h2 : k0 = k2
      · rw [if_pos h2, if_pos h2]
      · rw [if_neg h2, if_neg h2]
        exact ih k k2 hne

theorem dictDel_keys_no {α : Type} :
    ∀ (l : List (String × α)) (k : String),
      (l.map Prod.fst).Nodup →
      ∀ v : α, (k, v) ∉ dictDel l k := by
  intro l
  induction l with
  | nil => intro k _ v h; simp [dictDel] at h
  | cons p rest ih =>
    intro k hnd v h
    obtain ⟨k0, v0⟩ := p
    simp only [List.map_cons, List.nodup_cons] at hnd
    by_cases hk : k0 = k
    · subst hk
      rw [dictDel_cons, if_pos rfl] at h
      exact hnd.1 (by simpa using List.mem_map_of_mem Prod.fst h)
    · rw [dictDel_cons, if_neg hk] at h
      rcases List.mem_cons.mp h with h | h
      · exact hk (congrArg Prod.fst h).symm
      · exact ih k hnd.2 v h

theorem listMax_ge_of_mem :
    ∀ (l : List Int) (a : Int), a ∈ l →
      ∃ mx, listMax l = some mx ∧ a ≤ mx := by
  intro l
  induction l with
  | nil => intro a h; simp at h
  | cons x xs ih =>
    intro a h
    rcases List.mem_cons.mp h with h | h
    · subst h
      cases hm : listMax xs with
      | none => exact ⟨a, by simp [listMax, hm], le_refl a⟩
      | some m => exact ⟨max a m, by simp [listMax, hm], le_max_left a m⟩
    · obtain ⟨mx, hmx, hle⟩ := ih a h
      exact ⟨max x mx, by simp [listMax, hmx], le_trans hle (le_max_right x mx)⟩

theorem listMax_append_singleton :
    ∀ (l : List Int) (a : Int),
      listMax (l ++ [a]) =
        some (match listMax l with | none => a | some m => max m a) := by
  intro l
  induction l with
  | nil => intro a; simp [listMax]
  | cons x xs ih =>
    intro a
    show listMax (x :: (xs ++ [a])) = _
    rw [show listMax (x :: (xs ++ [a])) =
        match listMax (xs ++ [a]) with
        | none => some x
        | some m => some (max x m) from rfl]
    rw [ih a]
    cases hm : listMax xs with
    | none => simp [listMax, hm]
    | some m =>
      simp only [listMax, hm]
      rw [max_assoc]

theorem intDecimal_no_V (z : Int) : ∀ c ∈ intDecimal z, ¬ c = 'V' := by
  intro c hc
  unfold intDecimal at hc
  by_cases hz : z < 0
  · rw [if_pos hz] at hc
    rcases List.mem_cons.mp hc with hc | hc
    · subst hc; decide
    · exact (isDig_char_facts (natDecimal_all_dig hc)).2.2.2.1
  · rw [if_neg hz] at hc
    exact (isDig_char_facts (natDecimal_all_dig hc)).2.2.2.1

theorem removeV_mint (z : Int) :
    removeV (String.mk ('V' :: intDecimal z)) = String.mk (intDecimal z) := by
  unfold removeV
  congr 1
  show List.filter _ ('V' :: intDecimal z) = intDecimal z
  rw [List.filter_cons]
  have hV : (decide (¬ 'V' = 'V')) = false := by decide
  rw [hV]
  simp only [Bool.false_eq_true, if_false]
  apply List.filter_eq_self.mpr
  intro c hc
  simpa using intDecimal_no_V z c hc

theorem versionNumOf_mint (z : Int) :
    versionNumOf (String.mk ('V' :: intDecimal z)) = some z := by
  show pyInt (removeV (String.mk ('V' :: intDecimal z))) = some z
  rw [removeV_mint, pyInt_intDecimal]

theorem get_next_version_number_fresh (m : Metadata) :
    dictGet m.versions (get_next_version_number m) = none := by
  cases hg : dictGet m.versions (get_next_version_number m) with
  | none => rfl
  | some r =>
    exfalso
    have hmem := dictGet_mem _ _ _ hg
    have hnum : versionNumOf (get_next_version_number m) = some (next_num m) :=
      versionNumOf_mint (next_num m)
    have hin : next_num m ∈ version_nums m :=
      List.mem_filterMap.mpr ⟨(get_next_version_number m, r), hmem, hnum⟩
    obtain ⟨mx, hmx, hle⟩ := listMax_ge_of_mem _ _ hin
    have hnn : next_num m = mx + 1 := by
      unfold next_num
      rw [hmx]
    omega

theorem next_num_after_mint (m md2 : Metadata) (rec : VersionRecord)
    (h : md2.versions = dictSet m.versions (get_next_version_number m) rec) :
    next_num md2 = next_num m + 1 := by
  have happ := dictSet_of_absent _ _ rec (get_next_version_number_fresh m)
  have hnums : version_nums md2 = version_nums m ++ [next_num m] := by
    unfold version_nums
    rw [h, happ, List.filterMap_append]
    congr 1
    simp [get_next_version_number, versionNumOf_mint]
  unfold next_num
  rw [hnums, listMax_append_singleton]
  cases hm : listMax (version_nums m) with
  | none =>
    have hn : next_num m = 1 := by unfold next_num; rw [hm]
    rw [hn]
  | some mm =>
    have hn : next_num m = mm + 1 := by unfold next_num; rw [hm]
    have hmx : max mm (next_num m) = mm + 1 := by rw [hn]; exact max_eq_right (by omega)
    show max mm (next_num m) + 1 = _
    rw [hmx]

theorem mint_ne_of_num_ne {a b : Int} (h : a ≠ b) :
    String.mk ('V' :: intDecimal a) ≠ String.mk ('V' :: intDecimal b) := by
  intro he
  apply h
  apply intDecimal_inj
  have : 'V' :: intDecimal a = 'V' :: intDecimal b := congrArg String.data he
  exact congrArg String.mk (List.cons_injective this)

/-- The incremental table after the append of step 2. -/
def appendedIncremental (s : SysState) (new_data : List (String × Rat))
    (actual_label : Int) : List Row :=
  (s.incrementalFile.getD emptyIncremental) ++ [mkNewRow new_data actual_label]

theorem do_retrain_load_err {s : SysState} {oracle : TrainOracle}
    {d : List (String × Rat)} {l : Int} {now : String} {e : String}
    (h : load_model_and_scaler s none = Except.error e) :
    do_retrain s oracle d l now = (s, Except.error (wrapTrainingError e)) := by
  simp only [do_retrain, h]

theorem do_retrain_base_missing {s : SysState} {oracle : TrainOracle}
    {d : List (String × Rat)} {l : Int} {now : String} {pr : String × String}
    (hl : load_model_and_scaler s none = Except.ok pr) (hb : s.baseFile = none) :
    do_retrain s oracle d l now =
      ({ s with incrementalFile := some (appendedIncremental s d l) },
        Except.error (wrapTrainingError
          ("No such file or directory: Data-set/train_dataset.csv"))) := by
  simp only [do_retrain, hl, hb, appendedIncremental]

theorem do_retrain_oracle_err {s : SysState} {oracle : TrainOracle}
    {d : List (String × Rat)} {l : Int} {now : String} {pr : String × String}
    {base : List Row} {e : String}
    (hl : load_model_and_scaler s none = Except.ok pr) (hb : s.baseFile = some base)
    (ho : oracle.trainResult (base ++ appendedIncremental s d l) = Except.error e) :
    do_retrain s oracle d l now =
      ({ s with incrementalFile := some (appendedIncremental s d l) },
        Except.error (wrapTrainingError e)) := by
  simp only [do_retrain, hl, hb, appendedIncremental, ho] at *

/-- The record a successful retrain registers. -/
def retrainRecord (s : SysState) (d : List (String × Rat)) (l : Int) (now : String)
    (base : List Row) (acc : Rat) (cvs : List Rat) : VersionRecord :=
  { created_at := now
    description := "Retrained with " ++
      String.mk (natDecimal (appendedIncremental s d l).length) ++ " additional sample(s)"
    training_samples := (base ++ appendedIncremental s d l).length
    incremental_samples := some (appendedIncremental s d l).length
    model_path := "model_" ++ get_next_version_number s.metadata ++ ".joblib"
    scaler_path := "scaler_" ++ get_next_version_number s.metadata ++ ".joblib"
    accuracy := acc
    cv_accuracy := ratMean cvs }

/-- The registry a successful retrain leaves behind. -/
def retrainMetadata (s : SysState) (d : List (String × Rat)) (l : Int) (now : String)
    (base : List Row) (acc : Rat) (cvs : List Rat) : Metadata :=
  { current_version := get_next_version_number s.metadata
    versions := dictSet s.metadata.versions (get_next_version_number s.metadata)
      (retrainRecord s d l now base acc cvs) }

/-- The whole state a successful retrain leaves behind. -/
def retrainState (s : SysState) (d : List (String × Rat)) (l : Int) (now : String)
    (base : List Row) (acc : Rat) (cvs : List Rat) : SysState :=
  { s with
    metadata := retrainMetadata s d l now base acc cvs
    persisted := some (retrainMetadata s d l now base acc cvs)
    incrementalFile := some (appendedIncremental s d l)
    artifactFiles := s.artifactFiles ++
      [joinPath versions_dir ("model_" ++ get_next_version_number s.metadata ++ ".joblib"),
        joinPath versions_dir ("scaler_" ++ get_next_version_number s.metadata ++ ".joblib")] }

/-- The result dict a successful retrain returns. -/
def retrainRes (s : SysState) (d : List (String × Rat)) (l : Int)
    (base : List Row) (acc : Rat) (cvs : List Rat) : RetrainResult :=
  { success := true
    version := get_next_version_number s.metadata
    training_samples := (base ++ appendedIncremental s d l).length
    incremental_samples := (appendedIncremental s d l).length
    accuracy := acc
    cv_accuracy := ratMean cvs
    cv_scores := cvs
    message := "Model " ++ get_next_version_number s.metadata ++
      " trained successfully with " ++
      String.mk (natDecimal (base ++ appendedIncremental s d l).length) ++ " samples" }

theorem do_retrain_success {s : SysState} {oracle : TrainOracle}
    {d : List (String × Rat)} {l : Int} {now : String} {pr : String × String}
    {base : List Row} {acc : Rat} {cvs : List Rat}
    (hl : load_model_and_scaler s none = Except.ok pr) (hb : s.baseFile = some base)
    (ho : oracle.trainResult (base ++ appendedIncremental s d l) =
      Except.ok (acc, cvs)) :
    do_retrain s oracle d l now =
      (retrainState s d l now base acc cvs,
        Except.ok (retrainRes s d l base acc cvs)) := by
  simp only [do_retrain, hl, hb, appendedIncremental, ho, retrainState,
    retrainMetadata, retrainRecord, retrainRes] at *

theorem list_versions_sorted (m : Metadata) :
    List.Sorted viewLe (list_versions m) :=
  List.sorted_insertionSort viewLe _

theorem list_versions_perm (m : Metadata) :
    (list_versions m).Perm (m.versions.map (viewOf m.current_version)) :=
  List.perm_insertionSort viewLe _

theorem list_versions_mem {m : Metadata} {v : VersionView}
    (h : v ∈ list_versions m) :
    ∃ p ∈ m.versions, v = viewOf m.current_version p := by
  have hm : v ∈ m.versions.map (viewOf m.current_version) :=
    (list_versions_perm m).mem_iff.mp h
  obtain ⟨p, hp, hv⟩ := List.mem_map.mp hm
  exact ⟨p, hp, hv.symm⟩

theorem list_versions_is_current (m : Metadata) :
    ∀ v ∈ list_versions m, v.is_current = decide (v.version = m.current_version) := by
  intro v hv
  obtain ⟨p, _, rfl⟩ := list_versions_mem hv
  rfl

theorem mem_list_versions_of_mem {m : Metadata} {p : String × VersionRecord}
    (h : p ∈ m.versions) : viewOf m.current_version p ∈ list_versions m :=
  (list_versions_perm m).mem_iff.mpr (List.mem_map_of_mem _ h)

theorem sort_key_original {v : VersionView} (h : v.version = "Original") :
    sort_key v = (0, 0) := by
  unfold sort_key
  rw [if_pos h]

theorem mint_ne_original (z : Int) : ¬ String.mk ('V' :: intDecimal z) = "Original" := by
  intro h
  have hd : 'V' :: intDecimal z = "Original".data := congrArg String.data h
  have hh := congrArg (fun l => l.head?) hd
  simp at hh

theorem sort_key_minted {v : VersionView} {z : Int}
    (h : v.version = String.mk ('V' :: intDecimal z)) :
    sort_key v = (1, z) := by
  unfold sort_key
  rw [h, if_neg (mint_ne_original z), removeV_mint, pyInt_intDecimal]

theorem sort_key_malformed {v : VersionView}
    (h1 : ¬ v.version = "Original") (h2 : pyInt (removeV v.version) = none) :
    sort_key v = (2, 0) := by
  unfold sort_key
  rw [if_neg h1, h2]

theorem wrapTrainingError_ascii (msg : String) :
    ∀ c ∈ (wrapTrainingError msg).data, c.toNat ≤ 127 := by
  intro c hc
  unfold wrapTrainingError asciiIgnore at hc
  rw [String.data_append] at hc
  rcases List.mem_append.mp hc with hc | hc
  · have hall : ∀ x ∈ ("Retraining error: ").data, x.toNat ≤ 127 := by decide
    exact hall c hc
  · have := List.mem_filter.mp hc
    simpa using this.2

theorem wrapTrainingError_head (msg : String) :
    (wrapTrainingError msg).data.take 18 = ("Retraining error: ").data := by
  unfold wrapTrainingError
  rw [String.data_append]
  rw [List.take_append_of_le_length (by decide)]
  decide

/-- The registry invariant: the current version is a registered key. -/
def currentOk (m : Metadata) : Prop :=
  (dictGet m.versions m.current_version).isSome = true

/-- States reachable from the fresh-deployment bootstrap by any sequence of
switch, retrain and delete operations. -/
inductive Reachable : SysState → Prop
  | boot (now : String) (inc : Option (List Row)) (base : Option (List Row))
      (files : List String) : Reachable (bootState now inc base files)
  | switch {s : SysState} (n : String) : Reachable s →
      Reachable (switch_version s n).1
  | retrain {s : SysState} (oracle : TrainOracle) (d : List (String × Rat))
      (l : Int) (now : String) : Reachable s →
      Reachable (do_retrain s oracle d l now).1
  | delete {s : SysState} (n : String) : Reachable s →
      Reachable (delete_version s n).1

theorem currentOk_boot (now : String) (inc base : Option (List Row))
    (files : List String) : currentOk (bootState now inc base files).metadata := by
  show (dictGet [("Original", originalRecord now)] ("Original")).isSome = true
  rw [dictGet_cons, if_pos rfl]
  rfl

theorem currentOk_switch {s : SysState} (n : String) (h : currentOk s.metadata) :
    currentOk ((switch_version s n).1).metadata := by
  unfold switch_version
  cases hg : dictGet s.metadata.versions n with
  | none => simpa using h
  | some r => simp [currentOk, hg]

theorem currentOk_retrain {s : SysState} (oracle : TrainOracle)
    (d : List (String × Rat)) (l : Int) (now : String) (h : currentOk s.metadata) :
    currentOk ((do_retrain s oracle d l now).1).metadata := by
  cases hl : load_model_and_scaler s none with
  | error e => rw [do_retrain_load_err hl]; exact h
  | ok pr =>
    cases hb : s.baseFile with
    | none => rw [do_retrain_base_missing hl hb]; exact h
    | some base =>
      cases ho : oracle.trainResult (base ++ appendedIncremental s d l) with
      | error e => rw [do_retrain_oracle_err hl hb ho]; exact h
      | ok p =>
        obtain ⟨acc, cvs⟩ := p
        rw [do_retrain_success hl hb ho]
        show (dictGet (retrainMetadata s d l now base acc cvs).versions
          (retrainMetadata s d l now base acc cvs).current_version).isSome = true
        unfold retrainMetadata
        rw [dictGet_dictSet_self]
        rfl

theorem currentOk_delete {s : SysState} (n : String) (h : currentOk s.metadata) :
    currentOk ((delete_version s n).1).metadata := by
  unfold delete_version
  by_cases h1 : n = "Original"
  · rw [if_pos h1]; exact h
  · rw [if_neg h1]
    by_cases h2 : n = s.metadata.current_version
    · rw [if_pos h2]; exact h
    · rw [if_neg h2]
      cases hg : dictGet s.metadata.versions n with
      | none => exact h
      | some info =>
        show (dictGet (dictDel s.metadata.versions n)
          s.metadata.current_version).isSome = true
        rw [dictGet_dictDel_ne _ _ _ (fun hcn => h2 hcn.symm)]
        exact h

theorem reachable_currentOk {s : SysState} (h : Reachable s) :
    currentOk s.metadata := by
  induction h with
  | boot now inc base files => exact currentOk_boot now inc base files
  | switch n _ ih => exact currentOk_switch n ih
  | retrain oracle d l now _ ih => exact currentOk_retrain oracle d l now ih
  | delete n _ ih => exact currentOk_delete n ih

/-- Claim C4: for every sequence of registry operations (bootstrap, switch,
retrain, delete), current_version is always a key present in the versions
mapping. -/
theorem claim_C4_current_invariant {s : SysState} (h : Reachable s) :
    (dictGet s.metadata.versions s.metadata.current_version).isSome = true :=
  reachable_currentOk h

/-- Witness for C4: the invariant holds at the concrete bootstrap state. -/
theorem claim_C4_witness :
    (dictGet (bootState ("t") none none []).metadata.versions
      (bootState ("t") none none []).metadata.current_version).isSome = true :=
  claim_C4_current_invariant (Reachable.boot ("t") none none [])

/-- Claim C6: switching to a name absent from the registry returns false
and changes nothing; switching to a registered name returns true, makes it
current, and persists the registry. -/
theorem claim_C6_switch (s : SysState) (n : String) :
    (dictGet s.metadata.versions n = none → switch_version s n = (s, false))
    ∧ (∀ r, dictGet s.metadata.versions n = some r →
        (switch_version s n).2 = true
        ∧ get_current_version (switch_version s n).1.metadata = n
        ∧ (switch_version s n).1.persisted = some (switch_version s n).1.metadata) := by
  constructor
  · intro h
    unfold switch_version
    rw [h]
  · intro r h
    unfold switch_version
    rw [h]
    exact ⟨rfl, rfl, rfl⟩

/-- Witness for C6 at a concrete two-version registry. -/
theorem claim_C6_witness :
    switch_version (bootState ("t") none none []) ("missing") =
      (bootState ("t") none none [], false)
    ∧ (switch_version (bootState ("t") none none []) ("Original")).2 = true := by
  constructor
  · exact (claim_C6_switch (bootState ("t") none none []) ("missing")).1 (by rfl)
  · exact ((claim_C6_switch (bootState ("t") none none []) ("Original")).2
      (originalRecord ("t")) (by rfl)).1

/-- Claim C5: delete fails on "Original", on the current version and on
unknown names, leaving the state untouched; on any other registered name it
returns true, removes both artifact files, drops the entry from the
registry and from the listing, and persists. -/
theorem claim_C5_delete (s : SysState) (n : String) :
    (n = "Original" → delete_version s n = (s, false))
    ∧ (n = s.metadata.current_version → delete_version s n = (s, false))
    ∧ (dictGet s.metadata.versions n = none → delete_version s n = (s, false))
    ∧ (∀ info, ¬ n = "Original" → ¬ n = s.metadata.current_version →
        dictGet s.metadata.versions n = some info →
        (s.metadata.versions.map Prod.fst).Nodup →
        (delete_version s n).2 = true
        ∧ dictGet (delete_version s n).1.metadata.versions n = none
        ∧ (∀ v ∈ list_versions (delete_version s n).1.metadata, ¬ v.version = n)
        ∧ joinPath versions_dir info.model_path ∉ (delete_version s n).1.artifactFiles
        ∧ joinPath versions_dir info.scaler_path ∉ (delete_version s n).1.artifactFiles
        ∧ (delete_version s n).1.persisted = some (delete_version s n).1.metadata) := by
  refine ⟨?_, ?_, ?_, ?_⟩
  · intro h
    unfold delete_version
    rw [if_pos h]
  · intro h
    unfold delete_version
    by_cases h1 : n = "Original"
    · rw [if_pos h1]
    · rw [if_neg h1, if_pos h]
  · intro h
    unfold delete_version
    by_cases h1 : n = "Original"
    · rw [if_pos h1]
    · rw [if_neg h1]
      by_cases h2 : n = s.metadata.current_version
      · rw [if_pos h2]
      · rw [if_neg h2, h]
  · intro info h1 h2 hg hnd
    have hred : delete_version s n =
        ({ s with
          metadata := { s.metadata with
            versions := dictDel s.metadata.versions n }
          persisted := some { s.metadata with
            versions := dictDel s.metadata.versions n }
          artifactFiles := (s.artifactFiles.filter
              (fun f => ¬ f = joinPath versions_dir info.model_path)).filter
            (fun f => ¬ f = joinPath versions_dir info.scaler_path) }, true) := by
      unfold delete_version
      rw [if_neg h1, if_neg h2, hg]
    rw [hred]
    refine ⟨rfl, ?_, ?_, ?_, ?_, rfl⟩
    · cases hg2 : dictGet (dictDel s.metadata.versions n) n with
      | none => rfl
      | some v => exact absurd (dictGet_mem _ _ _ hg2) (dictDel_keys_no _ _ hnd v)
    · intro v hv hveq
      obtain ⟨p, hp, rfl⟩ := list_versions_mem hv
      have hpn : p = (n, p.2) := by
        have : p.1 = n := hveq
        exact Prod.ext this rfl
      rw [hpn] at hp
      exact dictDel_keys_no _ _ hnd p.2 hp
    · intro hmem
      have hm1 := List.mem_filter.mp hmem
      have hm2 := List.mem_filter.mp hm1.1
      simp at hm2
    · intro hmem
      have hm1 := List.mem_filter.mp hmem
      simp at hm1

/-- Witness for C5 at a concrete registry holding "Original" and "V1". -/
def wRec1 : VersionRecord :=
  { created_at := "t"
    description := "r"
    training_samples := 3
    incremental_samples := some 1
    model_path := "model_V1.joblib"
    scaler_path := "scaler_V1.joblib"
    accuracy := 1
    cv_accuracy := 1 }

/-- A concrete two-version registry used by the witnesses. -/
def wMeta : Metadata :=
  { current_version := "Original"
    versions := [("Original", originalRecord ("t")), ("V1", wRec1)] }

/-- A concrete base-dataset row used by the witnesses. -/
def wRow : Row :=
  { ph := 7, hardness := 200, solids := 20000, chloramines := 7
    sulfate := 350, conductivity := 400, organic_carbon := 14
    trihalomethanes := 70, turbidity := 4, potability := 1 }

/-- A concrete loadable state used by the witnesses. -/
def wState : SysState :=
  { metadata := wMeta
    persisted := some wMeta
    incrementalFile := none
    baseFile := some [wRow]
    artifactFiles := ["models/model.joblib", "models/scaler.joblib",
      "models/versions/model_V1.joblib", "models/versions/scaler_V1.joblib"] }

theorem claim_C5_witness :
    delete_version wState ("Original") = (wState, false)
    ∧ (delete_version wState ("V1")).2 = true
    ∧ dictGet (delete_version wState ("V1")).1.metadata.versions ("V1") = none := by
  refine ⟨(claim_C5_delete wState ("Original")).1 rfl, ?_, ?_⟩
  · exact ((claim_C5_delete wState ("V1")).2.2.2 wRec1 (by decide) (by decide)
      (by rfl) (by decide)).1
  · exact ((claim_C5_delete wState ("V1")).2.2.2 wRec1 (by decide) (by decide)
      (by rfl) (by decide)).2.1

/-- Claim C9: loading a name absent from the registry raises an error (an
`Except.error`, not a failure flag), and a successful load resolves the
paths of "Original" against the base models directory while every other
version resolves against the dedicated versions subdirectory. -/
theorem claim_C9_load (s : SysState) (n : String) :
    (dictGet s.metadata.versions n = none →
      load_model_and_scaler s (some n) =
        Except.error ("Version " ++ n ++ " not found"))
    ∧ (∀ info m sc, dictGet s.metadata.versions n = some info →
        load_model_and_scaler s (some n) = Except.ok (m, sc) →
        (n = "Original" →
          m = joinPath models_dir info.model_path
          ∧ sc = joinPath models_dir info.scaler_path)
        ∧ (¬ n = "Original" →
          m = joinPath versions_dir info.model_path
          ∧ sc = joinPath versions_dir info.scaler_path))
    ∧ versions_dir = models_dir ++ "/versions" := by
  refine ⟨?_, ?_, rfl⟩
  · intro h
    simp only [load_model_and_scaler, Option.getD_some, h]
  · intro info m sc hg hok
    simp only [load_model_and_scaler, Option.getD_some, hg] at hok
    by_cases ho : n = "Original"
    · rw [if_pos ho, if_pos ho] at hok
      refine ⟨fun _ => ?_, fun hno => absurd ho hno⟩
      split at hok
      · split at hok
        · exact ⟨(Prod.mk.injEq _ _ _ _).mp (Except.ok.inj hok) |>.1.symm,
            (Prod.mk.injEq _ _ _ _).mp (Except.ok.inj hok) |>.2.symm⟩
        · exact absurd hok (by simp)
      · exact absurd hok (by simp)
    · rw [if_neg ho, if_neg ho] at hok
      refine ⟨fun hyes => absurd hyes ho, fun _ => ?_⟩
      split at hok
      · split at hok
        · exact ⟨(Prod.mk.injEq _ _ _ _).mp (Except.ok.inj hok) |>.1.symm,
            (Prod.mk.injEq _ _ _ _).mp (Except.ok.inj hok) |>.2.symm⟩
        · exact absurd hok (by simp)
      · exact absurd hok (by simp)

/-- Witness for C9: a missing name errors, and the two concrete versions
resolve against their respective directories. -/
theorem claim_C9_witness :
    load_model_and_scaler wState (some ("missing")) =
      Except.error ("Version missing not found")
    ∧ ("models/versions/model_V1.joblib" : String) =
        joinPath versions_dir wRec1.model_path := by
  constructor
  · have h := (claim_C9_load wState ("missing")).1 (by rfl)
    rw [h]
    rfl
  · have h := ((claim_C9_load wState ("V1")).2.1 wRec1
      ("models/versions/model_V1.joblib") ("models/versions/scaler_V1.joblib")
      (by rfl) (by rfl)).2 (by decide)
    exact h.1

theorem do_retrain_ok_inv {s : SysState} {oracle : TrainOracle}
    {d : List (String × Rat)} {l : Int} {now : String} {res : RetrainResult}
    (h : (do_retrain s oracle d l now).2 = Except.ok res) :
    ∃ (pr : String × String) (base : List Row) (acc : Rat) (cvs : List Rat),
      load_model_and_scaler s none = Except.ok pr
      ∧ s.baseFile = some base
      ∧ oracle.trainResult (base ++ appendedIncremental s d l) = Except.ok (acc, cvs)
      ∧ do_retrain s oracle d l now =
          (retrainState s d l now base acc cvs,
            Except.ok (retrainRes s d l base acc cvs)) := by
  cases hl : load_model_and_scaler s none with
  | error e =>
    rw [do_retrain_load_err hl] at h
    exact absurd h (by simp)
  | ok pr =>
    cases hb : s.baseFile with
    | none =>
      rw [do_retrain_base_missing hl hb] at h
      exact absurd h (by simp)
    | some base =>
      cases ho : oracle.trainResult (base ++ appendedIncremental s d l) with
      | error e =>
        rw [do_retrain_oracle_err hl hb ho] at h
        exact absurd h (by simp)
      | ok p =>
        obtain ⟨acc, cvs⟩ := p
        exact ⟨pr, base, acc, cvs, rfl, rfl, ho, do_retrain_success hl hb ho⟩

/-- Claim C1: after a successful retrain with one labeled sample, the fresh
name V<k> appears in the listing, get_current returns it, and the new
record counts the base rows plus all accumulated incremental samples
including the one just appended. -/
theorem claim_C1_retrain_success (s : SysState) (oracle : TrainOracle)
    (d : List (String × Rat)) (l : Int) (now : String)
    (res : RetrainResult) (base : List Row)
    (h : (do_retrain s oracle d l now).2 = Except.ok res)
    (hb : s.baseFile = some base) :
    res.version = get_next_version_number s.metadata
    ∧ dictGet s.metadata.versions res.version = none
    ∧ get_current_version (do_retrain s oracle d l now).1.metadata = res.version
    ∧ (∃ v ∈ list_versions (do_retrain s oracle d l now).1.metadata,
        v.version = res.version)
    ∧ (∃ r, dictGet (do_retrain s oracle d l now).1.metadata.versions res.version =
          some r
        ∧ r.training_samples =
            base.length + ((s.incrementalFile.getD emptyIncremental).length + 1)
        ∧ r.incremental_samples =
            some ((s.incrementalFile.getD emptyIncremental).length + 1))
    ∧ res.training_samples =
        base.length + ((s.incrementalFile.getD emptyIncremental).length + 1) := by
  obtain ⟨pr, base2, acc, cvs, hl, hb2, ho, heq⟩ := do_retrain_ok_inv h
  have hbb : base = base2 := by
    rw [hb] at hb2
    exact Option.some.inj hb2
  subst hbb
  rw [heq] at h ⊢
  have hres : res = retrainRes s d l base acc cvs := (Except.ok.inj h).symm
  subst hres
  refine ⟨rfl, get_next_version_number_fresh s.metadata, rfl, ?_, ?_, ?_⟩
  · refine ⟨viewOf (retrainMetadata s d l now base acc cvs).current_version
      (get_next_version_number s.metadata, retrainRecord s d l now base acc cvs),
      ?_, rfl⟩
    apply mem_list_versions_of_mem
    apply dictGet_mem
    exact dictGet_dictSet_self s.metadata.versions _ _
  · refine ⟨retrainRecord s d l now base acc cvs,
      dictGet_dictSet_self s.metadata.versions _ _, ?_, ?_⟩
    · simp [retrainRecord, appendedIncremental, List.length_append]
    · simp [retrainRecord, appendedIncremental, List.length_append]
  · simp [retrainRes, appendedIncremental, List.length_append]

/-- Claim C3: the minted name is V(max numeric suffix + 1), hence fresh for
every registry state, and two consecutive successful retrains mint distinct
names with strictly increasing numeric suffixes. -/
theorem claim_C3_minting_monotone (s : SysState) (o1 o2 : TrainOracle)
    (d1 d2 : List (String × Rat)) (l1 l2 : Int) (n1 n2 : String)
    (r1 r2 : RetrainResult)
    (h1 : (do_retrain s o1 d1 l1 n1).2 = Except.ok r1)
    (h2 : (do_retrain (do_retrain s o1 d1 l1 n1).1 o2 d2 l2 n2).2 = Except.ok r2) :
    r1.version = String.mk ('V' :: intDecimal (next_num s.metadata))
    ∧ dictGet s.metadata.versions r1.version = none
    ∧ versionNumOf r1.version = some (next_num s.metadata)
    ∧ versionNumOf r2.version = some (next_num s.metadata + 1)
    ∧ ¬ r2.version = r1.version := by
  obtain ⟨pr, base, acc, cvs, hl, hb, ho, heq⟩ := do_retrain_ok_inv h1
  rw [heq] at h1 h2
  have hr1 : r1 = retrainRes s d1 l1 base acc cvs := (Except.ok.inj h1).symm
  subst hr1
  obtain ⟨pr2, base2, acc2, cvs2, hl2, hb2, ho2, heq2⟩ := do_retrain_ok_inv h2
  rw [heq2] at h2
  have hr2 : r2 = retrainRes (retrainState s d1 l1 n1 base acc cvs) d2 l2 base2
      acc2 cvs2 := (Except.ok.inj h2).symm
  subst hr2
  have hnn : next_num (retrainState s d1 l1 n1 base acc cvs).metadata =
      next_num s.metadata + 1 :=
    next_num_after_mint s.metadata _ (retrainRecord s d1 l1 n1 base acc cvs) rfl
  refine ⟨rfl, ?_, versionNumOf_mint (next_num s.metadata), ?_, ?_⟩
  · exact get_next_version_number_fresh s.metadata
  · show versionNumOf (String.mk ('V' :: intDecimal
      (next_num (retrainState s d1 l1 n1 base acc cvs).metadata))) = _
    rw [hnn]
    exact versionNumOf_mint (next_num s.metadata + 1)
  · show ¬ String.mk ('V' :: intDecimal
      (next_num (retrainState s d1 l1 n1 base acc cvs).metadata)) =
      String.mk ('V' :: intDecimal (next_num s.metadata))
    rw [hnn]
    exact mint_ne_of_num_ne (by omega)

/-- Claim C2: any pipeline failure surfaces as a wrapped RuntimeError whose
message is pure ASCII (with the fixed prefix), leaves the in-memory and
persisted registry untouched and commits no record, while the incremental
append — durable before training proceeds — is never rolled back (and has
certainly happened whenever the current artifacts were loadable). -/
theorem claim_C2_retrain_failure_atomic (s : SysState) (oracle : TrainOracle)
    (d : List (String × Rat)) (l : Int) (now : String) (e : String)
    (h : (do_retrain s oracle d l now).2 = Except.error e) :
    (do_retrain s oracle d l now).1.metadata = s.metadata
    ∧ (do_retrain s oracle d l now).1.persisted = s.persisted
    ∧ (∀ c ∈ e.data, c.toNat ≤ 127)
    ∧ e.data.take 18 = ("Retraining error: ").data
    ∧ ((do_retrain s oracle d l now).1.incrementalFile = s.incrementalFile
        ∨ (do_retrain s oracle d l now).1.incrementalFile =
          some (appendedIncremental s d l))
    ∧ (∀ pr, load_model_and_scaler s none = Except.ok pr →
        (do_retrain s oracle d l now).1.incrementalFile =
          some (appendedIncremental s d l)) := by
  cases hl : load_model_and_scaler s none with
  | error msg =>
    rw [do_retrain_load_err hl] at h ⊢
    have he : e = wrapTrainingError msg := (Except.error.inj h).symm
    subst he
    refine ⟨rfl, rfl, wrapTrainingError_ascii msg, wrapTrainingError_head msg,
      Or.inl rfl, ?_⟩
    intro pr hpr
    exact absurd hpr (by simp)
  | ok pr0 =>
    cases hb : s.baseFile with
    | none =>
      rw [do_retrain_base_missing hl hb] at h ⊢
      have he : e = wrapTrainingError
          ("No such file or directory: Data-set/train_dataset.csv") :=
        (Except.error.inj h).symm
      subst he
      exact ⟨rfl, rfl, wrapTrainingError_ascii _, wrapTrainingError_head _,
        Or.inr rfl, fun pr hpr => rfl⟩
    | some base =>
      cases ho : oracle.trainResult (base ++ appendedIncremental s d l) with
      | error msg =>
        rw [do_retrain_oracle_err hl hb ho] at h ⊢
        have he : e = wrapTrainingError msg := (Except.error.inj h).symm
        subst he
        exact ⟨rfl, rfl, wrapTrainingError_ascii msg, wrapTrainingError_head msg,
          Or.inr rfl, fun pr hpr => rfl⟩
      | ok p =>
        obtain ⟨acc, cvs⟩ := p
        rw [do_retrain_success hl hb ho] at h
        exact absurd h (by simp)

/-- Claim C10: a retrain whose feature dictionary omits named features is
not rejected; each missing feature is silently recorded as 0 in the row
appended to the incremental table. -/
theorem claim_C10_missing_features (s : SysState) (oracle : TrainOracle)
    (d : List (String × Rat)) (l : Int) (now : String) (pr : String × String)
    (base : List Row) (acc : Rat) (cvs : List Rat)
    (hl : load_model_and_scaler s none = Except.ok pr)
    (hb : s.baseFile = some base)
    (ho : oracle.trainResult (base ++ appendedIncremental s d l) =
      Except.ok (acc, cvs)) :
    (∃ res, (do_retrain s oracle d l now).2 = Except.ok res)
    ∧ (do_retrain s oracle d l now).1.incrementalFile =
        some ((s.incrementalFile.getD emptyIncremental) ++ [mkNewRow d l])
    ∧ (dictGet d ("ph") = none → (mkNewRow d l).ph = 0)
    ∧ (dictGet d ("Hardness") = none → (mkNewRow d l).hardness = 0)
    ∧ (dictGet d ("Solids") = none → (mkNewRow d l).solids = 0)
    ∧ (dictGet d ("Chloramines") = none → (mkNewRow d l).chloramines = 0)
    ∧ (dictGet d ("Sulfate") = none → (mkNewRow d l).sulfate = 0)
    ∧ (dictGet d ("Conductivity") = none → (mkNewRow d l).conductivity = 0)
    ∧ (dictGet d ("Organic_carbon") = none → (mkNewRow d l).organic_carbon = 0)
    ∧ (dictGet d ("Trihalomethanes") = none → (mkNewRow d l).trihalomethanes = 0)
    ∧ (dictGet d ("Turbidity") = none → (mkNewRow d l).turbidity = 0) := by
  rw [do_retrain_success hl hb ho]
  refine ⟨⟨retrainRes s d l base acc cvs, rfl⟩, rfl, ?_, ?_, ?_, ?_, ?_, ?_, ?_,
    ?_, ?_⟩ <;>
    (intro hmiss; simp [mkNewRow, hmiss])

/-- Claim C7: under the library contract for a binary probabilistic
classifier (hard predictions in {0,1}, probability estimates in [0,1]),
the predict endpoint returns a label in {0,1} and a confidence in [0,1]
equal to the predicted class's probability, fixed at 1.0 when no
probability interface exists. -/
theorem claim_C7_predict (model : SkModel) (scaler : Option SkScaler)
    (features : List Rat)
    (hpred : model.predictOne (scaledInput scaler features) = 0
      ∨ model.predictOne (scaledInput scaler features) = 1)
    (hproba : ∀ p, model.predictProba = some p →
      ∀ q ∈ p (scaledInput scaler features), 0 ≤ q ∧ q ≤ 1) :
    ((predictEndpoint model scaler features).1 = 0
      ∨ (predictEndpoint model scaler features).1 = 1)
    ∧ (0 ≤ (predictEndpoint model scaler features).2
        ∧ (predictEndpoint model scaler features).2 ≤ 1)
    ∧ (model.predictProba = none → (predictEndpoint model scaler features).2 = 1)
    ∧ (∀ p, model.predictProba = some p →
        (predictEndpoint model scaler features).2 =
          (p (scaledInput scaler features)).getD
            (model.predictOne (scaledInput scaler features)).toNat 0) := by
  refine ⟨hpred, ?_, ?_, ?_⟩
  · cases hp : model.predictProba with
    | none =>
      have : (predictEndpoint model scaler features).2 = 1 := by
        unfold predictEndpoint
        rw [hp]
      rw [this]
      exact ⟨by norm_num, le_refl 1⟩
    | some p =>
      have hconf : (predictEndpoint model scaler features).2 =
          (p (scaledInput scaler features)).getD
            (model.predictOne (scaledInput scaler features)).toNat 0 := by
        unfold predictEndpoint
        rw [hp]
      rw [hconf]
      unfold List.getD
      cases hg : (p (scaledInput scaler features)).get?
          (model.predictOne (scaledInput scaler features)).toNat with
      | none => exact ⟨le_refl 0, by norm_num⟩
      | some q =>
        have hq : q ∈ p (scaledInput scaler features) := List.get?_mem hg
        simpa using hproba p hp q hq
  · intro hp
    unfold predictEndpoint
    rw [hp]
  · intro p hp
    unfold predictEndpoint
    rw [hp]

/-- A concrete binary soft-voting classifier stub for the C7 witness. -/
def wModel : SkModel :=
  { predictOne := fun _ => 1
    predictProba := some (fun _ => [1 / 2, 1 / 2]) }

/-- Witness for C7 on a concrete probe vector without a scaler. -/
theorem claim_C7_witness :
    ((predictEndpoint wModel none [7, 200, 20000, 7, 350, 400, 14, 70, 4]).1 = 0
      ∨ (predictEndpoint wModel none [7, 200, 20000, 7, 350, 400, 14, 70, 4]).1 = 1)
    ∧ (0 ≤ (predictEndpoint wModel none [7, 200, 20000, 7, 350, 400, 14, 70, 4]).2
        ∧ (predictEndpoint wModel none [7, 200, 20000, 7, 350, 400, 14, 70, 4]).2 ≤ 1) := by
  have h := claim_C7_predict wModel none [7, 200, 20000, 7, 350, 400, 14, 70, 4]
    (Or.inr rfl)
    (by
      intro p hp q hq
      have hpe : (fun _ : List Rat => [(1 : Rat) / 2, 1 / 2]) = p :=
        Option.some.inj hp
      rw [← hpe] at hq
      rcases List.mem_cons.mp hq with hq | hq
      · subst hq; norm_num
      · rcases List.mem_cons.mp hq with hq | hq
        · subst hq; norm_num
        · exact absurd hq (List.not_mem_nil q))
  exact ⟨h.1, h.2.1⟩

/-- Claim C8 (amended): the listing is Python-stably sorted by the code's
key (lexicographic on `sort_key`), it is a permutation of the view of the
registry, each entry's is_current flag is true exactly for the current
version, and the key sends "Original" to band 0, any canonically spelled
`V<z>` name to band 1 at value `z`, and names whose `V`-stripped form fails
integer parsing to band 2. -/
theorem claim_C8_list_order (m : Metadata) :
    List.Sorted viewLe (list_versions m)
    ∧ (list_versions m).Perm (m.versions.map (viewOf m.current_version))
    ∧ (∀ v ∈ list_versions m,
        v.is_current = decide (v.version = m.current_version))
    ∧ (∀ v : VersionView, v.version = "Original" → sort_key v = (0, 0))
    ∧ (∀ (v : VersionView) (z : Int),
        v.version = String.mk ('V' :: intDecimal z) → sort_key v = (1, z))
    ∧ (∀ v : VersionView, ¬ v.version = "Original" →
        pyInt (removeV v.version) = none → sort_key v = (2, 0)) :=
  ⟨list_versions_sorted m, list_versions_perm m, list_versions_is_current m,
    fun _ h => sort_key_original h,
    fun _ _ h => sort_key_minted h,
    fun _ h1 h2 => sort_key_malformed h1 h2⟩

/-- Witness for C8: the flag and ordering facts at the concrete registry
`wMeta`. -/
theorem claim_C8_witness :
    List.Sorted viewLe (list_versions wMeta)
    ∧ (viewOf ("Original") ("Original", originalRecord ("t"))).is_current =
        decide ((viewOf ("Original") ("Original", originalRecord ("t"))).version =
          wMeta.current_version) := by
  constructor
  · exact (claim_C8_list_order wMeta).1
  · exact (claim_C8_list_order wMeta).2.2.1
      (viewOf ("Original") ("Original", originalRecord ("t")))
      (mem_list_versions_of_mem (List.mem_cons_self _ _))

/-- Modelled from the specification's wording for the display order: rank 0
for "Original", rank 1 for a name matching the `V<n>` pattern (a `V`
followed by digits), rank 2 for names matching neither pattern, which the
specification says sort last. -/
def specRank (name : String) : Nat :=
  if name = "Original" then 0
  else
    match name.data with
    | 'V' :: ds => if ds ≠ [] ∧ ds.all isDig = true then 1 else 2
    | _ => 2

/-- A throwaway record for the C8 counterexample registry. -/
def cRec : VersionRecord :=
  { created_at := "t"
    description := "r"
    training_samples := 0
    incremental_samples := none
    model_path := "m"
    scaler_path := "s"
    accuracy := 0
    cv_accuracy := 0 }

/-- A registry holding a key, "7", that matches neither naming pattern yet
parses as an integer after `V`-stripping. -/
def cMeta8 : Metadata :=
  { current_version := "Original"
    versions := [("Original", cRec), ("V9", cRec), ("7", cRec)] }

/-- Counterexample to C8 as stated: in the listing of `cMeta8` the entry
"7", which matches neither the "Original" nor the `V<n>` pattern, sorts
before the `V<n>` entry "V9" instead of last, because the code's key parses
`"7".replace("V", "")` successfully. -/
theorem claim_C8_counterexample :
    (list_versions cMeta8).map VersionView.version = ["Original", "7", "V9"]
    ∧ specRank ("7") = 2
    ∧ specRank ("V9") = 1
    ∧ ¬ (list_versions cMeta8).Pairwise
        (fun u v => specRank u.version ≤ specRank v.version) := by
  refine ⟨by decide, by decide, by decide, by decide⟩

/-- A concrete oracle that always trains successfully. -/
def wOracle : TrainOracle :=
  { trainResult := fun _ => Except.ok (1, [1, 1, 1, 1, 1]) }

/-- A concrete oracle that always fails, with a non-ASCII message. -/
def wOracleErr : TrainOracle :=
  { trainResult := fun _ => Except.error ("fit failed é") }

/-- Witness for C1: retraining the concrete state mints "V2", switches to
it, and its record counts 1 base row plus 1 incremental sample. -/
theorem claim_C1_witness :
    (do_retrain wState wOracle [("ph", 7)] 1 ("t2")).2 =
      Except.ok (retrainRes wState [("ph", 7)] 1 [wRow] 1 [1, 1, 1, 1, 1])
    ∧ (retrainRes wState [("ph", 7)] 1 [wRow] 1 [1, 1, 1, 1, 1]).version = "V2"
    ∧ get_current_version
        (do_retrain wState wOracle [("ph", 7)] 1 ("t2")).1.metadata = "V2"
    ∧ (retrainRes wState [("ph", 7)] 1 [wRow] 1 [1, 1, 1, 1, 1]).training_samples = 2 := by
  have hl : load_model_and_scaler wState none =
      Except.ok ("models/model.joblib", "models/scaler.joblib") := rfl
  have hb : wState.baseFile = some [wRow] := rfl
  have ho : wOracle.trainResult ([wRow] ++ appendedIncremental wState [("ph", 7)] 1) =
      Except.ok (1, [1, 1, 1, 1, 1]) := rfl
  have h : (do_retrain wState wOracle [("ph", 7)] 1 ("t2")).2 =
      Except.ok (retrainRes wState [("ph", 7)] 1 [wRow] 1 [1, 1, 1, 1, 1]) := by
    rw [do_retrain_success hl hb ho]
  have hc := claim_C1_retrain_success wState wOracle [("ph", 7)] 1 ("t2")
    (retrainRes wState [("ph", 7)] 1 [wRow] 1 [1, 1, 1, 1, 1]) [wRow] h hb
  have hv : (retrainRes wState [("ph", 7)] 1 [wRow] 1 [1, 1, 1, 1, 1]).version =
      "V2" := hc.1.trans (by decide)
  refine ⟨h, hv, hc.2.2.1.trans hv, ?_⟩
  rw [hc.2.2.2.2.2]
  decide

/-- Witness for C2: the failing oracle leaves the registry untouched, the
surfaced message is the ASCII-stripped wrapped one, and the appended
incremental row survives. -/
theorem claim_C2_witness :
    (do_retrain wState wOracleErr [] 1 ("t2")).2 =
      Except.error ("Retraining error: fit failed ")
    ∧ (do_retrain wState wOracleErr [] 1 ("t2")).1.metadata = wState.metadata
    ∧ (do_retrain wState wOracleErr [] 1 ("t2")).1.incrementalFile =
        some (appendedIncremental wState [] 1) := by
  have hl : load_model_and_scaler wState none =
      Except.ok ("models/model.joblib", "models/scaler.joblib") := rfl
  have hb : wState.baseFile = some [wRow] := rfl
  have ho : wOracleErr.trainResult ([wRow] ++ appendedIncremental wState [] 1) =
      Except.error ("fit failed é") := rfl
  have h : (do_retrain wState wOracleErr [] 1 ("t2")).2 =
      Except.error ("Retraining error: fit failed ") := by
    rw [do_retrain_oracle_err hl hb ho]
    show (Except.error (wrapTrainingError ("fit failed é")) :
      Except String RetrainResult) = _
    exact congrArg Except.error (by decide)
  have hc := claim_C2_retrain_failure_atomic wState wOracleErr [] 1 ("t2") _ h
  exact ⟨h, hc.1,
    hc.2.2.2.2.2 ("models/model.joblib", "models/scaler.joblib") hl⟩

/-- Witness for C3: two consecutive successful retrains from the concrete
state mint suffixes 2 then 3 and distinct names. -/
theorem claim_C3_witness :
    versionNumOf (retrainRes wState [] 1 [wRow] 1 [1, 1, 1, 1, 1]).version = some 2
    ∧ versionNumOf (retrainRes (do_retrain wState wOracle [] 1 ("t2")).1
        [] 2 [wRow] 1 [1, 1, 1, 1, 1]).version = some 3
    ∧ ¬ (retrainRes (do_retrain wState wOracle [] 1 ("t2")).1
          [] 2 [wRow] 1 [1, 1, 1, 1, 1]).version =
        (retrainRes wState [] 1 [wRow] 1 [1, 1, 1, 1, 1]).version := by
  have hl : load_model_and_scaler wState none =
      Except.ok ("models/model.joblib", "models/scaler.joblib") := rfl
  have hb : wState.baseFile = some [wRow] := rfl
  have ho : wOracle.trainResult ([wRow] ++ appendedIncremental wState [] 1) =
      Except.ok (1, [1, 1, 1, 1, 1]) := rfl
  have h1 : (do_retrain wState wOracle [] 1 ("t2")).2 =
      Except.ok (retrainRes wState [] 1 [wRow] 1 [1, 1, 1, 1, 1]) := by
    rw [do_retrain_success hl hb ho]
  have hl2 : load_model_and_scaler (do_retrain wState wOracle [] 1 ("t2")).1 none =
      Except.ok ("models/versions/model_V2.joblib",
        "models/versions/scaler_V2.joblib") := by
    rw [do_retrain_success hl hb ho]
    rfl
  have hb2 : (do_retrain wState wOracle [] 1 ("t2")).1.baseFile = some [wRow] := by
    rw [do_retrain_success hl hb ho]
    rfl
  have ho2 : wOracle.trainResult ([wRow] ++
      appendedIncremental (do_retrain wState wOracle [] 1 ("t2")).1 [] 2) =
      Except.ok (1, [1, 1, 1, 1, 1]) := rfl
  have h2 : (do_retrain (do_retrain wState wOracle [] 1 ("t2")).1 wOracle
      [] 2 ("t3")).2 =
      Except.ok (retrainRes (do_retrain wState wOracle [] 1 ("t2")).1
        [] 2 [wRow] 1 [1, 1, 1, 1, 1]) := by
    rw [do_retrain_success hl2 hb2 ho2]
  have hc := claim_C3_minting_monotone wState wOracle wOracle [] [] 1 2
    ("t2") ("t3") _ _ h1 h2
  exact ⟨hc.2.2.1.trans (by decide), hc.2.2.2.1.trans (by decide), hc.2.2.2.2⟩

/-- Witness for C10: retraining with an empty feature dictionary succeeds
and the appended row holds zeros. -/
theorem claim_C10_witness :
    (∃ res, (do_retrain wState wOracle [] 1 ("t2")).2 = Except.ok res)
    ∧ (mkNewRow [] 1).ph = 0
    ∧ (mkNewRow [] 1).hardness = 0 := by
  have hc := claim_C10_missing_features wState wOracle [] 1 ("t2")
    ("models/model.joblib", "models/scaler.joblib") [wRow] 1 [1, 1, 1, 1, 1]
    rfl rfl rfl
  exact ⟨hc.1, hc.2.2.1 rfl, hc.2.2.2.1 rfl⟩
